import Mathlib

/-!
# Verification of the IRENO Smart Assistant client-side state layer

Shallow embedding of the reducer-driven conversation store, the
localStorage persistence codec and the hydration merge from
`frontend/src/context/AppContext.jsx`, together with the chat-submission
failure handling from `ChatInput.jsx`.

Modelling conventions:
* JavaScript objects of fixed shape become Lean structures; timestamps
  (`Date` values) are modelled in their serialized string form, which is
  what the persistence layer stores and what the code reads back.
* The browser's `localStorage` becomes an explicit association list of
  string keys to string values, threaded through the functions that use it.
* `JSON.stringify` / `JSON.parse` become an executable printer and parser
  over a `Json` value type (strings with the common escape sequences,
  booleans, null, numbers kept as raw literals, arrays and objects).
* Exceptions that the source catches internally are modelled with
  explicit outcome parameters / `Except`; functions whose JS bodies catch
  all errors are total Lean functions.
-/

namespace Ireno

/-- An entry of the `userRoles` catalog in `initialState`. -/
structure Role where
  id : String
  name : String
  description : String
  color : String
  deriving Repr, DecidableEq

/-- An entry of the `quickPrompts` catalog in `initialState`. -/
structure QuickPrompt where
  title : String
  description : String
  prompt : String
  deriving Repr, DecidableEq

/-- A logged-in user, as built by `LoginPage.handleSubmit`:
`{ username, role: selectedRole, avatar }`.  `selectedRole` is looked up with
`Array.find` in the `userRoles` catalog, so it is a catalog entry and may be
absent (`undefined`). -/
structure User where
  username : String
  role : Option Role
  avatar : String
  deriving Repr, DecidableEq

/-- A chat message, as built by `ChatInput` / `WelcomeScreen`:
`{ id, role, content, timestamp }`. -/
structure Message where
  id : String
  role : String
  content : String
  timestamp : String
  deriving Repr, DecidableEq

/-- A conversation, as built by `ConversationSidebar.handleNewChat`:
`{ id, title, messages, createdAt, updatedAt, pinned }`. -/
structure Conversation where
  id : String
  title : String
  messages : List Message
  createdAt : String
  updatedAt : String
  pinned : Bool
  deriving Repr, DecidableEq

/-- The application state tree managed by `appReducer`, field for field and in
the field order of the `initialState` object literal in `AppContext.jsx`. -/
structure State where
  currentUser : Option User
  conversations : List Conversation
  activeConversation : Option Conversation
  isTyping : Bool
  theme : String
  sidebarOpen : Bool
  userRoles : List Role
  quickPrompts : List QuickPrompt
  deriving Repr, DecidableEq

/-- The payload of `UPDATE_CONVERSATION`: a partial conversation whose present
fields overwrite the matching entry via object spread `{ ...conv, ...updates }`.
A `none` field is a key absent from the `updates` object. -/
structure ConversationUpdates where
  id : Option String := none
  title : Option String := none
  messages : Option (List Message) := none
  createdAt : Option String := none
  updatedAt : Option String := none
  pinned : Option Bool := none
  deriving Repr, DecidableEq

/-- `{ ...conv, ...updates }` restricted to the known conversation fields. -/
def applyUpdates (conv : Conversation) (u : ConversationUpdates) : Conversation :=
  { id := u.id.getD conv.id
    title := u.title.getD conv.title
    messages := u.messages.getD conv.messages
    createdAt := u.createdAt.getD conv.createdAt
    updatedAt := u.updatedAt.getD conv.updatedAt
    pinned := u.pinned.getD conv.pinned }

/-- The eleven dispatched action shapes of `ActionTypes`, plus `unknown`,
which stands for any action whose `type` string is none of the eleven
recognized ones (the reducer's `default` branch). -/
inductive Action where
  | setUser (payload : Option User)
  | logoutUser
  | setTheme (payload : String)
  | toggleSidebar
  | addConversation (payload : Conversation)
  | setActiveConversation (payload : Option Conversation)
  | addMessage (conversationId : String) (message : Message)
  | setTyping (payload : Bool)
  | deleteConversation (payload : String)
  | updateConversation (id : String) (updates : ConversationUpdates)
  | clearAllConversations
  | unknown
  deriving Repr, DecidableEq

/-- The reducer `appReducer(state, action)` of `AppContext.jsx`, case for
case.  Optional chaining `state.activeConversation?.id === x` becomes a match
on the option. -/
def appReducer (state : State) (action : Action) : State :=
  match action with
  | .setUser payload =>
      { state with currentUser := payload }
  | .logoutUser =>
      { state with currentUser := none, conversations := [], activeConversation := none }
  | .setTheme payload =>
      { state with theme := payload }
  | .toggleSidebar =>
      { state with sidebarOpen := !state.sidebarOpen }
  | .addConversation payload =>
      { state with conversations := payload :: state.conversations
                   activeConversation := some payload }
  | .setActiveConversation payload =>
      { state with activeConversation := payload }
  | .addMessage conversationId message =>
      let updatedConversations := state.conversations.map fun conv =>
        if conv.id = conversationId
          then { conv with messages := conv.messages ++ [message] }
          else conv
      let updatedActiveConv := match state.activeConversation with
        | some a =>
            if a.id = conversationId
              then some { a with messages := a.messages ++ [message] }
              else some a
        | none => none
      { state with conversations := updatedConversations
                   activeConversation := updatedActiveConv }
  | .setTyping payload =>
      { state with isTyping := payload }
  | .deleteConversation payload =>
      { state with conversations := state.conversations.filter fun conv => conv.id ≠ payload
                   activeConversation := match state.activeConversation with
                     | some a => if a.id = payload then none else some a
                     | none => none }
  | .updateConversation id updates =>
      { state with conversations := state.conversations.map fun conv =>
          if conv.id = id then applyUpdates conv updates else conv }
  | .clearAllConversations =>
      { state with conversations := [], activeConversation := none }
  | .unknown => state

/-- The `initialState` constant of `AppContext.jsx`. -/
def initialState : State :=
  { currentUser := none
    conversations := []
    activeConversation := none
    isTyping := false
    theme := "light"
    sidebarOpen := true
    userRoles :=
      [ { id := "field_technician", name := "Field Technician"
          description := "Real-time fault detection and resolution", color := "#10B981" }
      , { id := "command_center", name := "Command Center Operator"
          description := "Situational awareness and operational control", color := "#3B82F6" }
      , { id := "senior_leadership", name := "Senior Leadership"
          description := "Strategic insights and performance monitoring", color := "#8B5CF6" } ]
    quickPrompts :=
      [ { title := "System Status Check"
          description := "Get current status of all renewable energy sources"
          prompt := "Check system status for all renewable energy sources" }
      , { title := "Performance Report"
          description := "Generate monthly performance analytics"
          prompt := "Generate monthly performance report" }
      , { title := "Active Alerts"
          description := "Show current active alerts and warnings"
          prompt := "What are the current active alerts?" }
      , { title := "Maintenance Schedule"
          description := "View maintenance schedules for this week"
          prompt := "Show me maintenance schedules for this week" }
      , { title := "Efficiency Analysis"
          description := "Analyze power generation efficiency trends"
          prompt := "Analyze power generation efficiency trends" }
      , { title := "Compliance Report"
          description := "Create regulatory compliance report"
          prompt := "Create compliance report for regulatory submission" }
      , { title := "Fault Detection"
          description := "Check fault detection logs for last 24 hours"
          prompt := "Check fault detection logs for last 24 hours" }
      , { title := "Grid Load"
          description := "Show current grid load distribution"
          prompt := "What's the current grid load distribution?" } ] }

/-- Running a sequence of dispatched actions through the reducer. -/
def runActions (s : State) (acts : List Action) : State :=
  acts.foldl appReducer s

/-! ### Concrete sample data (for instantiating the theorems) -/

/-- A fresh conversation with the shape produced by
`ConversationSidebar.handleNewChat`. -/
def sampleConv (cid title : String) : Conversation :=
  { id := cid, title := title, messages := [], createdAt := "t0", updatedAt := "t0",
    pinned := false }

/-- A message with the shape produced by `ChatInput.handleSubmit`. -/
def sampleMsg (mid role content : String) : Message :=
  { id := mid, role := role, content := content, timestamp := "t1" }

/-- A state with one conversation `"1"` in the collection. -/
def sampleStateColl : State :=
  { initialState with conversations := [sampleConv "1" "T"] }

/-- A state whose active pointer references conversation `"1"` while the
collection is empty (reachable via `SET_ACTIVE_CONVERSATION`). -/
def sampleStateActiveOnly : State :=
  { initialState with activeConversation := some (sampleConv "1" "T") }

/-- A state with conversations `"1"` (active) and `"2"`. -/
def sampleStateTwo : State :=
  { initialState with
      conversations := [sampleConv "1" "A", sampleConv "2" "B"]
      activeConversation := some (sampleConv "1" "A") }

end Ireno

/-! ### JSON values, printer and parser

The persistence codec is `JSON.stringify` / `JSON.parse` applied to the state
tree.  The state tree only ever contains strings, booleans, `null`, arrays and
plain objects (timestamps are modelled in their serialized string form), so the
executable model below covers that grammar plus number literals (kept as their
raw text, since the state layer never produces numbers).  Escape handling
covers the sequences the printer emits (`\" \\ \/ \n \t \r \b \f`); `\uXXXX`
escapes are outside the model. -/

namespace Ireno

mutual
inductive Json where
  | null
  | bool (b : Bool)
  | str (s : String)
  | num (raw : String)
  | arr (items : JsonArr)
  | obj (fields : JsonObj)
  deriving Repr, DecidableEq

inductive JsonArr where
  | nil
  | cons (hd : Json) (tl : JsonArr)
  deriving Repr, DecidableEq

inductive JsonObj where
  | nil
  | cons (key : String) (val : Json) (tl : JsonObj)
  deriving Repr, DecidableEq
end

/-- One character of `JSON.stringify` string output. -/
def escapeChar (c : Char) : List Char :=
  if c = '"' then ['\\', '"']
  else if c = '\\' then ['\\', '\\']
  else if c = '\n' then ['\\', 'n']
  else if c = '\t' then ['\\', 't']
  else if c = '\r' then ['\\', 'r']
  else [c]

def escapeString (s : List Char) : List Char :=
  (s.map escapeChar).flatten

/-- `JSON.stringify` of a string value. -/
def printString (s : String) : List Char :=
  '"' :: (escapeString s.data ++ ['"'])

mutual
/-- `JSON.stringify` (no indentation argument, as in `saveStateToStorage`). -/
def printJson : Json → List Char
  | .null => "null".data
  | .bool b => if b then "true".data else "false".data
  | .str s => printString s
  | .num raw => raw.data
  | .arr .nil => ['[', ']']
  | .arr (.cons v items) => '[' :: (printJson v ++ printArrRest items ++ [']'])
  | .obj .nil => ['\x7b', '\x7d']
  | .obj (.cons k v fields) => '\x7b' :: (printKV k v ++ printObjRest fields ++ ['\x7d'])

def printKV (k : String) (v : Json) : List Char :=
  printString k ++ ':' :: printJson v

def printArrRest : JsonArr → List Char
  | .nil => []
  | .cons v items => ',' :: (printJson v ++ printArrRest items)

def printObjRest : JsonObj → List Char
  | .nil => []
  | .cons k v fields => ',' :: (printKV k v ++ printObjRest fields)
end

def isWsChar (c : Char) : Bool :=
  c = ' ' || c = '\n' || c = '\t' || c = '\r'

def skipWs : List Char → List Char
  | [] => []
  | c :: cs => if isWsChar c then skipWs cs else c :: cs

def unescapeChar (c : Char) : Option Char :=
  if c = '"' then some '"'
  else if c = '\\' then some '\\'
  else if c = '/' then some '/'
  else if c = 'n' then some '\n'
  else if c = 't' then some '\t'
  else if c = 'r' then some '\r'
  else if c = 'b' then some (Char.ofNat 8)
  else if c = 'f' then some (Char.ofNat 12)
  else none

/-- Parse the remainder of a string literal, after the opening quote. -/
def parseStringBody : List Char → Option (List Char × List Char)
  | [] => none
  | c :: cs =>
    if c = '"' then some ([], cs)
    else if c = '\\' then
      match cs with
      | [] => none
      | e :: cs2 =>
        match unescapeChar e with
        | some u =>
          match parseStringBody cs2 with
          | some (s, r) => some (u :: s, r)
          | none => none
        | none => none
    else
      match parseStringBody cs with
      | some (s, r) => some (c :: s, r)
      | none => none

/-- Split off leading decimal digits. -/
def splitDigits : List Char → List Char × List Char
  | [] => ([], [])
  | c :: cs =>
    if c.isDigit then
      let (d, r) := splitDigits cs
      (c :: d, r)
    else ([], c :: cs)

/-- Optional fraction part of a number literal. -/
def parseFracPart : List Char → Option (List Char × List Char)
  | '.' :: cs =>
    match splitDigits cs with
    | ([], _) => none
    | (d, r) => some ('.' :: d, r)
  | cs => some ([], cs)

/-- Optional exponent part of a number literal. -/
def parseExpPart : List Char → Option (List Char × List Char)
  | c :: cs =>
    if c = 'e' || c = 'E' then
      match cs with
      | s :: cs2 =>
        if s = '+' || s = '-' then
          match splitDigits cs2 with
          | ([], _) => none
          | (d, r) => some (c :: s :: d, r)
        else
          match splitDigits cs with
          | ([], _) => none
          | (d, r) => some (c :: d, r)
      | [] => none
    else some ([], c :: cs)
  | [] => some ([], [])

/-- A JSON number literal, kept as raw text. -/
def parseNumberLit (cs : List Char) : Option (List Char × List Char) :=
  let signSplit : List Char × List Char :=
    match cs with
    | c0 :: r0 => if c0 = '-' then ([c0], r0) else ([], cs)
    | [] => ([], [])
  let neg := signSplit.1
  let cs1 := signSplit.2
  match splitDigits cs1 with
  | ([], _) => none
  | (d, r) =>
    match parseFracPart r with
    | none => none
    | some (f, r2) =>
      match parseExpPart r2 with
      | none => none
      | some (e, r3) => some (neg ++ d ++ f ++ e, r3)

mutual
/-- Parse one JSON value; the fuel bounds the nesting of recursive values. -/
def parseValue : Nat → List Char → Option (Json × List Char)
  | 0, _ => none
  | fuel + 1, cs =>
    match skipWs cs with
    | [] => none
    | c :: rest =>
      if c = '"' then
        match parseStringBody rest with
        | some (s, r) => some (.str (String.mk s), r)
        | none => none
      else if c = '[' then
        match skipWs rest with
        | [] => none
        | c2 :: rest2 =>
          if c2 = ']' then some (.arr .nil, rest2)
          else
            match parseItems fuel (c2 :: rest2) with
            | some (items, r) => some (.arr items, r)
            | none => none
      else if c = '\x7b' then
        match skipWs rest with
        | [] => none
        | c2 :: rest2 =>
          if c2 = '\x7d' then some (.obj .nil, rest2)
          else
            match parseFields fuel (c2 :: rest2) with
            | some (fields, r) => some (.obj fields, r)
            | none => none
      else if c = 'n' then
        match rest with
        | 'u' :: 'l' :: 'l' :: r => some (.null, r)
        | _ => none
      else if c = 't' then
        match rest with
        | 'r' :: 'u' :: 'e' :: r => some (.bool true, r)
        | _ => none
      else if c = 'f' then
        match rest with
        | 'a' :: 'l' :: 's' :: 'e' :: r => some (.bool false, r)
        | _ => none
      else if c = '-' || c.isDigit then
        match parseNumberLit (c :: rest) with
        | some (raw, r) => some (.num (String.mk raw), r)
        | none => none
      else none

/-- Parse the elements of a non-empty array, up to and including `]`. -/
def parseItems : Nat → List Char → Option (JsonArr × List Char)
  | 0, _ => none
  | fuel + 1, cs =>
    match parseValue fuel cs with
    | some (v, r) =>
      match skipWs r with
      | [] => none
      | c2 :: r2 =>
        if c2 = ',' then
          match parseItems fuel r2 with
          | some (items, r3) => some (.cons v items, r3)
          | none => none
        else if c2 = ']' then some (.cons v .nil, r2)
        else none
    | none => none

/-- Parse the members of a non-empty object, up to and including the brace. -/
def parseFields : Nat → List Char → Option (JsonObj × List Char)
  | 0, _ => none
  | fuel + 1, cs =>
    match skipWs cs with
    | [] => none
    | c :: rest =>
      if c = '"' then
        match parseStringBody rest with
        | some (k, r) =>
          match skipWs r with
          | [] => none
          | c2 :: r2 =>
            if c2 = ':' then
              match parseValue fuel r2 with
              | some (v, r3) =>
                match skipWs r3 with
                | [] => none
                | c3 :: r4 =>
                  if c3 = ',' then
                    match parseFields fuel r4 with
                    | some (fields, r5) => some (.cons (String.mk k) v fields, r5)
                    | none => none
                  else if c3 = '\x7d' then some (.cons (String.mk k) v .nil, r4)
                  else none
              | none => none
            else none
        | none => none
      else none
end

mutual
/-- Values in the image of the encoder: everything except number literals
(whose raw text need not reparse). -/
def goodJson : Json → Bool
  | .null => true
  | .bool _ => true
  | .str _ => true
  | .num _ => false
  | .arr items => goodArr items
  | .obj fields => goodObj fields

def goodArr : JsonArr → Bool
  | .nil => true
  | .cons v items => goodJson v && goodArr items

def goodObj : JsonObj → Bool
  | .nil => true
  | .cons _ v fields => goodJson v && goodObj fields
end

mutual
/-- Parser fuel needed for a value: one unit per nested value or element. -/
def sizeJson : Json → Nat
  | .arr items => 1 + sizeArr items
  | .obj fields => 1 + sizeObj fields
  | _ => 1

def sizeArr : JsonArr → Nat
  | .nil => 0
  | .cons v items => 1 + sizeJson v + sizeArr items

def sizeObj : JsonObj → Nat
  | .nil => 0
  | .cons _ v fields => 1 + sizeJson v + sizeObj fields
end

/-- `JSON.stringify` as a whole-string function. -/
def Json.print (v : Json) : String :=
  String.mk (printJson v)

/-- `JSON.parse`: a whole string must be one value plus trailing whitespace.
The input length bounds the nesting depth, so it serves as fuel. -/
def Json.parse (s : String) : Option Json :=
  match parseValue s.data.length s.data with
  | some (v, rest) => if skipWs rest = [] then some v else none
  | none => none

end Ireno

/-! ### Encoding the state tree as JSON

`JSON.stringify` on the state object produces these fields, in the insertion
order of the object literals that build them.  A `User.role` of `undefined`
(role id not found in the catalog) is dropped by `JSON.stringify`, hence the
two shapes of `encodeUser`. -/

namespace Ireno

def listToJsonArr : List Json → JsonArr
  | [] => .nil
  | v :: vs => .cons v (listToJsonArr vs)

def encodeMessage (m : Message) : Json :=
  .obj (.cons "id" (.str m.id) (.cons "role" (.str m.role)
    (.cons "content" (.str m.content) (.cons "timestamp" (.str m.timestamp) .nil))))

def encodeConversation (c : Conversation) : Json :=
  .obj (.cons "id" (.str c.id) (.cons "title" (.str c.title)
    (.cons "messages" (.arr (listToJsonArr (c.messages.map encodeMessage)))
    (.cons "createdAt" (.str c.createdAt) (.cons "updatedAt" (.str c.updatedAt)
    (.cons "pinned" (.bool c.pinned) .nil))))))

def encodeRole (r : Role) : Json :=
  .obj (.cons "id" (.str r.id) (.cons "name" (.str r.name)
    (.cons "description" (.str r.description) (.cons "color" (.str r.color) .nil))))

def encodeQuickPrompt (q : QuickPrompt) : Json :=
  .obj (.cons "title" (.str q.title) (.cons "description" (.str q.description)
    (.cons "prompt" (.str q.prompt) .nil)))

def encodeUser (u : User) : Json :=
  match u.role with
  | some r =>
      .obj (.cons "username" (.str u.username) (.cons "role" (encodeRole r)
        (.cons "avatar" (.str u.avatar) .nil)))
  | none =>
      .obj (.cons "username" (.str u.username) (.cons "avatar" (.str u.avatar) .nil))

def encodeOptUser : Option User → Json
  | some u => encodeUser u
  | none => .null

def encodeOptConversation : Option Conversation → Json
  | some c => encodeConversation c
  | none => .null

/-- The eight fields of the serialized state object, in `initialState` order. -/
def stateFields (s : State) : JsonObj :=
  .cons "currentUser" (encodeOptUser s.currentUser)
  (.cons "conversations" (.arr (listToJsonArr (s.conversations.map encodeConversation)))
  (.cons "activeConversation" (encodeOptConversation s.activeConversation)
  (.cons "isTyping" (.bool s.isTyping)
  (.cons "theme" (.str s.theme)
  (.cons "sidebarOpen" (.bool s.sidebarOpen)
  (.cons "userRoles" (.arr (listToJsonArr (s.userRoles.map encodeRole)))
  (.cons "quickPrompts" (.arr (listToJsonArr (s.quickPrompts.map encodeQuickPrompt)))
    .nil)))))))

def encodeState (s : State) : Json :=
  .obj (stateFields s)

end Ireno

/-! ### JavaScript object-literal semantics and the hydration merge -/

namespace Ireno

def JsonObj.hasKey : JsonObj → String → Bool
  | .nil, _ => false
  | .cons k _ tl, key => k = key || JsonObj.hasKey tl key

def JsonObj.lookup : JsonObj → String → Option Json
  | .nil, _ => none
  | .cons k v tl, key => if k = key then some v else JsonObj.lookup tl key

def JsonObj.replaceKey : JsonObj → String → Json → JsonObj
  | .nil, _, _ => .nil
  | .cons k w tl, key, v =>
    if k = key then .cons k v (JsonObj.replaceKey tl key v)
    else .cons k w (JsonObj.replaceKey tl key v)

def JsonObj.appendKey : JsonObj → String → Json → JsonObj
  | .nil, key, v => .cons key v .nil
  | .cons k w tl, key, v => .cons k w (JsonObj.appendKey tl key v)

/-- JS property assignment: an existing key keeps its insertion position and
gets the new value; a new key is appended. -/
def JsonObj.setField (fs : JsonObj) (key : String) (v : Json) : JsonObj :=
  if fs.hasKey key then fs.replaceKey key v else fs.appendKey key v

/-- `{ ...target, ...source-fields }`: assign each source field in order. -/
def JsonObj.spreadOnto (target : JsonObj) : JsonObj → JsonObj
  | .nil => target
  | .cons k v tl => JsonObj.spreadOnto (target.setField k v) tl

def arrIndexFields (i : Nat) : JsonArr → JsonObj
  | .nil => .nil
  | .cons v items => .cons (toString i) v (arrIndexFields (i + 1) items)

def strIndexFields (i : Nat) : List Char → JsonObj
  | [] => .nil
  | c :: cs => .cons (toString i) (.str (String.mk [c])) (strIndexFields (i + 1) cs)

/-- The own enumerable properties contributed by `...value` in an object
literal: an object contributes its fields, an array (or string) its
index-keyed elements, and `null`/booleans/numbers contribute nothing. -/
def spreadSource : Json → JsonObj
  | .obj fs => fs
  | .arr items => arrIndexFields 0 items
  | .str s => strIndexFields 0 s.data
  | _ => .nil

/-- The hydration merge of `initializeStateFromStorage`:
`{ ...defaultState, ...parsedState, userRoles: defaultState.userRoles,
quickPrompts: defaultState.quickPrompts }`. -/
def hydrateFields (defaultState : State) (parsed : Json) : JsonObj :=
  (((JsonObj.nil.spreadOnto (stateFields defaultState)).spreadOnto
      (spreadSource parsed)).setField
    "userRoles" (.arr (listToJsonArr (defaultState.userRoles.map encodeRole)))).setField
    "quickPrompts" (.arr (listToJsonArr (defaultState.quickPrompts.map encodeQuickPrompt)))

/-- The validation `typeof parsedState !== 'object' || parsedState === null`,
negated: true exactly for JSON objects and arrays (JS arrays have `typeof`
`'object'`), false for `null` and scalars. -/
def isStructuredObject : Json → Bool
  | .obj _ => true
  | .arr _ => true
  | _ => false

/-- The key list of an object, in insertion order.  A JS object — such as the
result of `JSON.parse` — never has duplicate keys. -/
def JsonObj.keys : JsonObj → List String
  | .nil => []
  | .cons k _ tl => k :: JsonObj.keys tl

end Ireno

/-! ### The durable store and the persistence entry points -/

namespace Ireno

/-- `localStorage`: a string-keyed, string-valued store with JS key semantics
(setting an existing key overwrites in place, a new key is appended). -/
structure Store where
  entries : List (String × String)
  deriving Repr, DecidableEq

def Store.getItem (st : Store) (key : String) : Option String :=
  (st.entries.find? (fun e => e.1 = key)).map (fun e => e.2)

def Store.setItem (st : Store) (key value : String) : Store :=
  if st.entries.any (fun e => e.1 = key) then
    ⟨st.entries.map (fun e => if e.1 = key then (key, value) else e)⟩
  else ⟨st.entries ++ [(key, value)]⟩

def Store.removeItem (st : Store) (key : String) : Store :=
  ⟨st.entries.filter (fun e => e.1 ≠ key)⟩

/-- The fixed persistence key of `AppContext.jsx`. -/
def STORAGE_KEY : String := "ireno-chat-state"

/-- The result of `initializeStateFromStorage`: either the supplied default
state object itself, or a freshly merged object. -/
inductive InitResult where
  | default (s : State)
  | hydrated (fields : JsonObj)
  deriving Repr, DecidableEq

/-- `initializeStateFromStorage(defaultState)`, with the availability probe
outcome and the store passed explicitly.  The JS truthiness test
`if (storedState)` makes an empty stored string behave like an absent key.
The `catch` branch (parse failure or the thrown invalid-format error) removes
the key — best effort, modelled as succeeding — and returns the default.  The
function never raises to its caller; it is total here by construction. -/
def initializeStateFromStorage (available : Bool) (store : Store) (defaultState : State) :
    InitResult × Store :=
  if available = false then (.default defaultState, store)
  else
    match store.getItem STORAGE_KEY with
    | none => (.default defaultState, store)
    | some stored =>
      if stored = "" then (.default defaultState, store)
      else
        match Json.parse stored with
        | none => (.default defaultState, store.removeItem STORAGE_KEY)
        | some parsed =>
          if isStructuredObject parsed then
            (.hydrated (hydrateFields defaultState parsed), store)
          else (.default defaultState, store.removeItem STORAGE_KEY)

/-- The outcome of one `localStorage.setItem` attempt; `err name` models a
thrown exception with that `error.name`. -/
inductive WriteOutcome where
  | ok
  | err (name : String)
  deriving Repr, DecidableEq

def setItemOutcome (st : Store) (key value : String) :
    WriteOutcome → Except String Store
  | .ok => .ok (st.setItem key value)
  | .err name => .error name

/-- `saveStateToStorage(state)`, with the availability probe and the outcomes
of the (at most two) write attempts passed explicitly.  Returns the final
store and the number of write attempts made; the `Except` layer shows that
every internal throw is caught (the result is always `.ok`). -/
def saveStateToStorage (available : Bool) (o1 o2 : WriteOutcome) (st : Store)
    (state : State) : Except String (Store × Nat) :=
  if available = false then .ok (st, 0)
  else
    let blob := Json.print (encodeState state)
    match setItemOutcome st STORAGE_KEY blob o1 with
    | .ok st2 => .ok (st2, 1)
    | .error name =>
      if name = "QuotaExceededError" then
        match setItemOutcome (st.removeItem "ireno-theme") STORAGE_KEY blob o2 with
        | .ok st2 => .ok (st2, 2)
        | .error _ => .ok (st.removeItem "ireno-theme", 2)
      else .ok (st, 1)

/-- The encode–decode–merge pipeline of one persistence cycle followed by one
hydration: stringify the state, parse the string back, validate, and merge
with the given defaults. -/
def encodeDecodeMerge (defaultState s : State) : Option JsonObj :=
  match Json.parse (Json.print (encodeState s)) with
  | some v => if isStructuredObject v then some (hydrateFields defaultState v) else none
  | none => none

/-- The transitions excluded by the round-trip law's side condition. -/
def isDestructive : Action → Bool
  | .deleteConversation _ => true
  | .clearAllConversations => true
  | .logoutUser => true
  | _ => false

end Ireno

/-! ### The chat submission failure path -/

namespace Ireno

/-- Outcome of the `fetch` to `http://127.0.0.1:5000/api/chat`:
a 2xx response with body `{response}`, a non-2xx status (which
`sendMessageToBackend` turns into a thrown `HTTP error!` message), or a
rejected promise (network/transport error). -/
inductive BackendOutcome where
  | success (response : String)
  | httpError (status : Nat)
  | networkError (message : String)
  deriving Repr, DecidableEq

/-- The fallback assistant text of `ChatInput.sendMessageToBackend`. -/
def fallbackContent (errMessage : String) : String :=
  "Sorry, I'm having trouble connecting to the server right now. Please make sure the backend is running at http://127.0.0.1:5000. Error: " ++ errMessage

/-- The `error.message` reaching the catch block, when the outcome fails. -/
def outcomeErrorMessage : BackendOutcome → Option String
  | .success _ => none
  | .httpError status => some ("HTTP error! status: " ++ toString status)
  | .networkError m => some m

/-- `sendMessageToBackend` of `ChatInput.jsx` as its effect on the reducer
state: set the typing flag, then dispatch either the assistant response or the
synthetic fallback assistant message to the active conversation, and finally —
the JS `finally` block — clear the typing flag.  `active` is the non-null
active conversation (`handleSubmit` returns early when there is none); `aiId`
and `ts` stand for the generated message id and timestamp. -/
def sendMessageToBackend (st : State) (active : Conversation)
    (outcome : BackendOutcome) (aiId ts : String) : State :=
  let st1 := appReducer st (.setTyping true)
  let st2 := match outcome with
    | .success resp =>
        appReducer st1 (.addMessage active.id
          { id := aiId, role := "assistant", content := resp, timestamp := ts })
    | .httpError status =>
        appReducer st1 (.addMessage active.id
          { id := aiId, role := "assistant",
            content := fallbackContent ("HTTP error! status: " ++ toString status),
            timestamp := ts })
    | .networkError m =>
        appReducer st1 (.addMessage active.id
          { id := aiId, role := "assistant", content := fallbackContent m,
            timestamp := ts })
  appReducer st2 (.setTyping false)

/-! ### Concrete stores (for instantiating the theorems) -/

/-- An empty `localStorage`. -/
def emptyStore : Store := ⟨[]⟩

/-- A store holding a non-JSON blob under the persistence key. -/
def notJsonStore : Store := ⟨[(STORAGE_KEY, "not json")]⟩

/-- A store holding an empty string under the persistence key. -/
def emptyStringStore : Store := ⟨[(STORAGE_KEY, "")]⟩

/-- A persisted object with a tampered `userRoles` value. -/
def tamperedFields : JsonObj :=
  .cons "userRoles" (.str "HACKED") (.cons "theme" (.str "dark") .nil)

end Ireno

/-! ## Helper lemmas -/

namespace Ireno

theorem skipWs_not_ws {c : Char} (l : List Char) (h : isWsChar c = false) :
    skipWs (c :: l) = c :: l := by
  simp [skipWs, h]

theorem sizeJson_pos (v : Json) : 1 ≤ sizeJson v := by
  cases v <;> simp [sizeJson]

theorem escapeString_cons (c : Char) (cs : List Char) :
    escapeString (c :: cs) = escapeChar c ++ escapeString cs := by
  simp [escapeString]

theorem parseStringBody_quote (rest : List Char) :
    parseStringBody ('"' :: rest) = some ([], rest) := by
  rw [parseStringBody.eq_def]
  rfl

theorem parseStringBody_escaped (e u : Char) (x : List Char) (hu : unescapeChar e = some u) :
    parseStringBody ('\\' :: e :: x)
      = match parseStringBody x with
        | some (s, r) => some (u :: s, r)
        | none => none := by
  rw [parseStringBody.eq_def]
  simp [hu]

theorem parseStringBody_lit (c : Char) (x : List Char) (h1 : ¬c = '"') (h2 : ¬c = '\\') :
    parseStringBody (c :: x)
      = match parseStringBody x with
        | some (s, r) => some (c :: s, r)
        | none => none := by
  rw [parseStringBody.eq_def]
  simp [h1, h2]

/-- The string-literal parser inverts the string-literal printer. -/
theorem parseStringBody_escape (s : List Char) (rest : List Char) :
    parseStringBody (escapeString s ++ '"' :: rest) = some (s, rest) := by
  induction s with
  | nil => simp [escapeString, parseStringBody_quote]
  | cons c cs ih =>
      rw [escapeString_cons, List.append_assoc]
      by_cases h1 : c = '"'
      · subst h1
        rw [show escapeChar '"' = ['\\', '"'] from rfl]
        simp [parseStringBody_escaped _ _ _ (show unescapeChar '"' = some '"' from rfl), ih]
      · by_cases h2 : c = '\\'
        · subst h2
          rw [show escapeChar '\\' = ['\\', '\\'] from rfl]
          simp [parseStringBody_escaped _ _ _ (show unescapeChar '\\' = some '\\' from rfl), ih]
        · by_cases h3 : c = '\n'
          · subst h3
            rw [show escapeChar '\n' = ['\\', 'n'] from rfl]
            simp [parseStringBody_escaped _ _ _ (show unescapeChar 'n' = some '\n' from rfl), ih]
          · by_cases h4 : c = '\t'
            · subst h4
              rw [show escapeChar '\t' = ['\\', 't'] from rfl]
              simp [parseStringBody_escaped _ _ _ (show unescapeChar 't' = some '\t' from rfl),
                ih]
            · by_cases h5 : c = '\r'
              · subst h5
                rw [show escapeChar '\r' = ['\\', 'r'] from rfl]
                simp [parseStringBody_escaped _ _ _ (show unescapeChar 'r' = some '\r' from rfl),
                  ih]
              · rw [show escapeChar c = [c] from by simp [escapeChar, h1, h2, h3, h4, h5]]
                simp [parseStringBody_lit c _ h1 h2, ih]

/-- The first printed character of a value is never whitespace nor `]`. -/
theorem printJson_head (v : Json) (h : goodJson v = true) :
    ∃ c l, printJson v = c :: l ∧ isWsChar c = false ∧ ¬c = ']' := by
  cases v with
  | null => exact ⟨'n', _, by rw [printJson], by decide, by decide⟩
  | bool b =>
      cases b
      · exact ⟨'f', "alse".data, by rw [printJson]; rfl, by decide, by decide⟩
      · exact ⟨'t', "rue".data, by rw [printJson]; rfl, by decide, by decide⟩
  | str s => exact ⟨'"', _, by rw [printJson, printString], by decide, by decide⟩
  | num raw => exact absurd h (by simp [goodJson])
  | arr items =>
      cases items
      · exact ⟨'[', _, by rw [printJson], by decide, by decide⟩
      · exact ⟨'[', _, by rw [printJson], by decide, by decide⟩
  | obj fields =>
      cases fields
      · exact ⟨'\x7b', _, by rw [printJson], by decide, by decide⟩
      · exact ⟨'\x7b', _, by rw [printJson], by decide, by decide⟩

/-- The parser inverts the printer on encoder-producible values, for any fuel
at least the value's size, leaving any suffix intact. -/
theorem parse_print_aux (fuel : Nat) :
    (∀ v rest, goodJson v = true → sizeJson v ≤ fuel →
      parseValue fuel (printJson v ++ rest) = some (v, rest))
    ∧ (∀ v items rest, goodJson v = true → goodArr items = true →
        sizeArr (.cons v items) ≤ fuel →
        parseItems fuel (printJson v ++ (printArrRest items ++ (']' :: rest)))
          = some (.cons v items, rest))
    ∧ (∀ k v fields rest, goodJson v = true → goodObj fields = true →
        sizeObj (.cons k v fields) ≤ fuel →
        parseFields fuel (printKV k v ++ (printObjRest fields ++ ('\x7d' :: rest)))
          = some (.cons k v fields, rest)) := by
  induction fuel with
  | zero =>
      refine ⟨?_, ?_, ?_⟩
      · intro v rest hg hs
        exact absurd (le_trans (sizeJson_pos v) hs) (by decide)
      · intro v items rest hg hga hs
        rw [sizeArr] at hs
        exact absurd hs (by omega)
      · intro k v fields rest hg hgo hs
        rw [sizeObj] at hs
        exact absurd hs (by omega)
  | succ f ih =>
      obtain ⟨ihV, ihA, ihO⟩ := ih
      refine ⟨?_, ?_, ?_⟩
      · intro v rest hg hs
        cases v with
        | null => rw [printJson, parseValue]; rfl
        | bool b => cases b <;> (rw [printJson, parseValue]; rfl)
        | num raw => exact absurd hg (by simp [goodJson])
        | str s =>
            rw [printJson, parseValue]
            simp only [printString, List.cons_append, List.append_assoc,
              List.singleton_append, List.nil_append]
            rw [skipWs_not_ws _ (by decide)]
            simp [parseStringBody_escape]
        | arr items =>
            cases items with
            | nil => rw [printJson, parseValue]; rfl
            | cons w its =>
                have hgw : goodJson w = true := by
                  rw [goodJson, goodArr] at hg
                  exact (Bool.and_eq_true_iff.mp hg).1
                have hgits : goodArr its = true := by
                  rw [goodJson, goodArr] at hg
                  exact (Bool.and_eq_true_iff.mp hg).2
                have hsz : sizeArr (.cons w its) ≤ f := by
                  rw [sizeJson] at hs
                  omega
                rw [printJson, parseValue]
                simp only [List.cons_append, List.append_assoc, List.singleton_append]
                rw [skipWs_not_ws _ (by decide)]
                obtain ⟨c1, l1, hpv, hws1, hne1⟩ := printJson_head w hgw
                rw [hpv]
                simp only [List.cons_append]
                rw [skipWs_not_ws _ hws1]
                simp only [show (('[' : Char) = '"') = False by simp,
                  show (('[' : Char) = '[') = True by simp, if_false, if_true,
                  if_neg hne1, List.nil_append]
                rw [← List.cons_append, ← hpv, ihA w its rest hgw hgits hsz]
        | obj fields =>
            cases fields with
            | nil => rw [printJson, parseValue]; rfl
            | cons k w fs =>
                have hgw : goodJson w = true := by
                  rw [goodJson, goodObj] at hg
                  exact (Bool.and_eq_true_iff.mp hg).1
                have hgfs : goodObj fs = true := by
                  rw [goodJson, goodObj] at hg
                  exact (Bool.and_eq_true_iff.mp hg).2
                have hsz : sizeObj (.cons k w fs) ≤ f := by
                  rw [sizeJson] at hs
                  omega
                rw [printJson, parseValue]
                simp only [List.cons_append, List.append_assoc, List.singleton_append]
                rw [skipWs_not_ws _ (by decide)]
                simp only [printKV, printString, List.cons_append, List.append_assoc,
                  List.singleton_append]
                rw [skipWs_not_ws _ (by decide)]
                simp only [show (('\x7b' : Char) = '"') = False by simp,
                  show (('\x7b' : Char) = '[') = False by simp,
                  show (('\x7b' : Char) = '\x7b') = True by simp,
                  show (('"' : Char) = '\x7d') = False by simp,
                  if_false, if_true]
                simp only [List.nil_append]
                have := ihO k w fs rest hgw hgfs hsz
                rw [printKV, printString] at this
                simp only [List.cons_append, List.append_assoc, List.singleton_append,
                  List.nil_append] at this
                rw [this]
      · intro v items rest hgv hgits hs
        have hszv : sizeJson v ≤ f := by
          rw [sizeArr] at hs
          omega
        rw [parseItems]
        rw [ihV v _ hgv hszv]
        cases items with
        | nil =>
            simp only [printArrRest, List.nil_append]
            rw [skipWs_not_ws _ (by decide)]
            simp
        | cons w2 its2 =>
            have hgw2 : goodJson w2 = true := by
              rw [goodArr] at hgits
              exact (Bool.and_eq_true_iff.mp hgits).1
            have hgits2 : goodArr its2 = true := by
              rw [goodArr] at hgits
              exact (Bool.and_eq_true_iff.mp hgits).2
            have hsz2 : sizeArr (.cons w2 its2) ≤ f := by
              rw [sizeArr, sizeArr] at hs
              have := sizeJson_pos v
              rw [sizeArr]
              omega
            rw [printArrRest]
            simp only [List.cons_append, List.append_assoc]
            rw [skipWs_not_ws _ (by decide)]
            simp only [show ((',' : Char) = ',') = True by simp, if_true]
            rw [ihA w2 its2 rest hgw2 hgits2 hsz2]
      · intro k v fields rest hgv hgfs hs
        have hszv : sizeJson v ≤ f := by
          rw [sizeObj] at hs
          omega
        rw [parseFields]
        simp only [printKV, printString, List.cons_append, List.append_assoc,
          List.singleton_append]
        rw [skipWs_not_ws _ (by decide)]
        simp only [show (('"' : Char) = '"') = True by simp, if_true]
        rw [parseStringBody_escape]
        simp only [List.nil_append]
        rw [skipWs_not_ws _ (by decide)]
        simp only [show ((':' : Char) = ':') = True by simp, if_true]
        rw [ihV v _ hgv hszv]
        cases fields with
        | nil =>
            simp only [printObjRest, List.nil_append]
            rw [skipWs_not_ws _ (by decide)]
            simp
        | cons k2 v2 fs2 =>
            have hgv2 : goodJson v2 = true := by
              rw [goodObj] at hgfs
              exact (Bool.and_eq_true_iff.mp hgfs).1
            have hgfs2 : goodObj fs2 = true := by
              rw [goodObj] at hgfs
              exact (Bool.and_eq_true_iff.mp hgfs).2
            have hsz2 : sizeObj (.cons k2 v2 fs2) ≤ f := by
              rw [sizeObj, sizeObj] at hs
              have := sizeJson_pos v
              rw [sizeObj]
              omega
            rw [printObjRest]
            simp only [List.cons_append, List.append_assoc]
            rw [skipWs_not_ws _ (by decide)]
            simp only [show ((',' : Char) = ',') = True by simp,
              show ((',' : Char) = '\x7d') = False by simp, if_true, if_false]
            rw [ihO k2 v2 fs2 rest hgv2 hgfs2 hsz2]

mutual
theorem sizeJson_lt_printJson_length (v : Json) (h : goodJson v = true) :
    sizeJson v + 1 ≤ (printJson v).length := by
  cases v with
  | null => simp [printJson, sizeJson]
  | bool b => cases b <;> simp [printJson, sizeJson]
  | str s => simp [printJson, printString, sizeJson]
  | num raw => exact absurd h (by simp [goodJson])
  | arr items =>
      cases items with
      | nil => simp [printJson, sizeJson, sizeArr]
      | cons w its =>
          rw [goodJson, goodArr] at h
          have h1 := sizeJson_lt_printJson_length w (Bool.and_eq_true_iff.mp h).1
          have h2 := sizeArr_le_printArrRest_length its (Bool.and_eq_true_iff.mp h).2
          rw [printJson, sizeJson, sizeArr]
          simp only [List.length_cons, List.length_append, List.length_singleton]
          omega
  | obj fields =>
      cases fields with
      | nil => simp [printJson, sizeJson, sizeObj]
      | cons k w fs =>
          rw [goodJson, goodObj] at h
          have h1 := sizeJson_lt_printJson_length w (Bool.and_eq_true_iff.mp h).1
          have h2 := sizeObj_le_printObjRest_length fs (Bool.and_eq_true_iff.mp h).2
          rw [printJson, sizeJson, sizeObj]
          simp only [printKV, printString, List.length_cons, List.length_append,
            List.length_singleton]
          omega

theorem sizeArr_le_printArrRest_length (items : JsonArr) (h : goodArr items = true) :
    sizeArr items ≤ (printArrRest items).length := by
  cases items with
  | nil => simp [printArrRest, sizeArr]
  | cons w its =>
      rw [goodArr] at h
      have h1 := sizeJson_lt_printJson_length w (Bool.and_eq_true_iff.mp h).1
      have h2 := sizeArr_le_printArrRest_length its (Bool.and_eq_true_iff.mp h).2
      rw [printArrRest, sizeArr]
      simp only [List.length_cons, List.length_append]
      omega

theorem sizeObj_le_printObjRest_length (fields : JsonObj) (h : goodObj fields = true) :
    sizeObj fields ≤ (printObjRest fields).length := by
  cases fields with
  | nil => simp [printObjRest, sizeObj]
  | cons k w fs =>
      rw [goodObj] at h
      have h1 := sizeJson_lt_printJson_length w (Bool.and_eq_true_iff.mp h).1
      have h2 := sizeObj_le_printObjRest_length fs (Bool.and_eq_true_iff.mp h).2
      rw [printObjRest, sizeObj]
      simp only [printKV, printString, List.length_cons, List.length_append,
        List.length_singleton]
      omega
end

/-- `JSON.parse` inverts `JSON.stringify` on encoder-produced values. -/
theorem Json.parse_print (v : Json) (h : goodJson v = true) :
    Json.parse (Json.print v) = some v := by
  have hlen : sizeJson v ≤ (printJson v).length := by
    have := sizeJson_lt_printJson_length v h
    omega
  have hrt := (parse_print_aux (printJson v).length).1 v [] h hlen
  rw [List.append_nil] at hrt
  show (match parseValue (printJson v).length (printJson v) with
    | some (v, rest) => if skipWs rest = [] then some v else none
    | none => none) = some v
  rw [hrt]
  simp [skipWs]

theorem goodArr_listToJsonArr (l : List Json) (h : ∀ v ∈ l, goodJson v = true) :
    goodArr (listToJsonArr l) = true := by
  induction l with
  | nil => simp [listToJsonArr, goodArr]
  | cons v vs ih =>
      rw [listToJsonArr, goodArr]
      simp only [Bool.and_eq_true]
      exact ⟨h v (List.mem_cons_self v vs), ih (fun w hw => h w (List.mem_cons_of_mem v hw))⟩

theorem goodJson_encodeMessage (m : Message) : goodJson (encodeMessage m) = true := by
  simp [encodeMessage, goodJson, goodObj]

theorem goodJson_encodeConversation (c : Conversation) :
    goodJson (encodeConversation c) = true := by
  rw [encodeConversation]
  simp [goodJson, goodObj]
  exact goodArr_listToJsonArr _
    (fun w hw => by obtain ⟨m, _, rfl⟩ := List.mem_map.mp hw; exact goodJson_encodeMessage m)

theorem goodJson_encodeRole (r : Role) : goodJson (encodeRole r) = true := by
  simp [encodeRole, goodJson, goodObj]

theorem goodJson_encodeQuickPrompt (q : QuickPrompt) :
    goodJson (encodeQuickPrompt q) = true := by
  simp [encodeQuickPrompt, goodJson, goodObj]

theorem goodJson_encodeUser (u : User) : goodJson (encodeUser u) = true := by
  cases hr : u.role with
  | none => simp [encodeUser, hr, goodJson, goodObj]
  | some r => simp [encodeUser, hr, encodeRole, goodJson, goodObj]

theorem goodJson_encodeOptUser (u : Option User) : goodJson (encodeOptUser u) = true := by
  cases u with
  | none => simp [encodeOptUser, goodJson]
  | some u => simp [encodeOptUser, goodJson_encodeUser]

theorem goodJson_encodeOptConversation (c : Option Conversation) :
    goodJson (encodeOptConversation c) = true := by
  cases c with
  | none => simp [encodeOptConversation, goodJson]
  | some c => simp [encodeOptConversation, goodJson_encodeConversation]

theorem goodJson_encodeState (s : State) : goodJson (encodeState s) = true := by
  rw [encodeState, stateFields]
  simp [goodJson, goodObj, goodJson_encodeOptUser, goodJson_encodeOptConversation]
  refine ⟨?_, ?_, ?_⟩
  · exact goodArr_listToJsonArr _
      (fun w hw => by
        obtain ⟨c, _, rfl⟩ := List.mem_map.mp hw; exact goodJson_encodeConversation c)
  · exact goodArr_listToJsonArr _
      (fun w hw => by obtain ⟨r, _, rfl⟩ := List.mem_map.mp hw; exact goodJson_encodeRole r)
  · exact goodArr_listToJsonArr _
      (fun w hw => by
        obtain ⟨q, _, rfl⟩ := List.mem_map.mp hw; exact goodJson_encodeQuickPrompt q)

theorem spreadOnto_nil_stateFields (d : State) :
    JsonObj.nil.spreadOnto (stateFields d) = stateFields d := rfl

set_option maxHeartbeats 1600000 in
theorem spreadOnto_stateFields_stateFields (d s : State) :
    (stateFields d).spreadOnto (stateFields s) = stateFields s := by
  simp only [stateFields, JsonObj.spreadOnto, JsonObj.setField, JsonObj.hasKey,
    JsonObj.replaceKey, JsonObj.appendKey, String.reduceEq, decide_True, decide_False,
    Bool.false_or, Bool.true_or, Bool.or_false, Bool.or_true, if_true, if_false,
    ite_true, ite_false, reduceIte]

/-- The hydration merge of a full serialized state over defaults restores
every persisted field and then overrides the two catalogs. -/
theorem hydrateFields_stateFields (d s : State) :
    hydrateFields d (encodeState s)
      = stateFields { s with userRoles := d.userRoles, quickPrompts := d.quickPrompts } := by
  rw [hydrateFields, show spreadSource (encodeState s) = stateFields s from rfl,
    spreadOnto_nil_stateFields, spreadOnto_stateFields_stateFields]
  simp only [stateFields, JsonObj.setField, JsonObj.hasKey, JsonObj.replaceKey,
    JsonObj.appendKey, String.reduceEq, decide_True, decide_False,
    Bool.false_or, Bool.true_or, Bool.or_false, Bool.or_true, if_true, if_false,
    ite_true, ite_false, reduceIte]

/-- One full persistence cycle: stringify, parse, validate, merge. -/
theorem encodeDecodeMerge_eq (d s : State) :
    encodeDecodeMerge d s
      = some (stateFields
          { s with userRoles := d.userRoles, quickPrompts := d.quickPrompts }) := by
  rw [encodeDecodeMerge, Json.parse_print _ (goodJson_encodeState s)]
  show (if isStructuredObject (encodeState s) = true
    then some (hydrateFields d (encodeState s)) else none) = _
  rw [if_pos (show isStructuredObject (encodeState s) = true from by
    rw [encodeState, isStructuredObject]), hydrateFields_stateFields]

theorem JsonObj.lookup_replaceKey_self (fs : JsonObj) (k : String) (v : Json)
    (h : fs.hasKey k = true) : (fs.replaceKey k v).lookup k = some v := by
  cases fs with
  | nil => simp [JsonObj.hasKey] at h
  | cons k0 w tl =>
      rw [JsonObj.hasKey] at h
      rw [JsonObj.replaceKey]
      by_cases h0 : k0 = k
      · subst h0
        simp [JsonObj.lookup]
      · rw [if_neg h0, JsonObj.lookup, if_neg h0]
        exact JsonObj.lookup_replaceKey_self tl k v (by simpa [h0] using h)

theorem JsonObj.lookup_replaceKey_ne (fs : JsonObj) (k k' : String) (v : Json)
    (h : ¬k' = k) : (fs.replaceKey k v).lookup k' = fs.lookup k' := by
  cases fs with
  | nil => rfl
  | cons k0 w tl =>
      rw [JsonObj.replaceKey]
      by_cases h0 : k0 = k
      · have hne : ¬k0 = k' := by
          rw [h0]
          exact fun hh => h hh.symm
        rw [if_pos h0, JsonObj.lookup, JsonObj.lookup, if_neg hne, if_neg hne,
          JsonObj.lookup_replaceKey_ne tl k k' v h]
      · rw [if_neg h0, JsonObj.lookup, JsonObj.lookup,
          JsonObj.lookup_replaceKey_ne tl k k' v h]

theorem JsonObj.lookup_appendKey_self (fs : JsonObj) (k : String) (v : Json)
    (h : fs.hasKey k = false) : (fs.appendKey k v).lookup k = some v := by
  cases fs with
  | nil => simp [JsonObj.appendKey, JsonObj.lookup]
  | cons k0 w tl =>
      rw [JsonObj.hasKey] at h
      have h0 : ¬k0 = k := by
        intro hh
        simp [hh] at h
      rw [JsonObj.appendKey, JsonObj.lookup, if_neg h0]
      exact JsonObj.lookup_appendKey_self tl k v (by simpa [h0] using h)

theorem JsonObj.lookup_appendKey_ne (fs : JsonObj) (k k' : String) (v : Json)
    (h : ¬k' = k) : (fs.appendKey k v).lookup k' = fs.lookup k' := by
  cases fs with
  | nil =>
      conv_lhs => rw [JsonObj.appendKey, JsonObj.lookup]
      rw [if_neg (fun hh => h hh.symm)]
  | cons k0 w tl =>
      rw [JsonObj.appendKey, JsonObj.lookup, JsonObj.lookup,
        JsonObj.lookup_appendKey_ne tl k k' v h]

theorem JsonObj.lookup_setField_self (fs : JsonObj) (k : String) (v : Json) :
    (fs.setField k v).lookup k = some v := by
  rw [JsonObj.setField]
  by_cases h : fs.hasKey k = true
  · rw [if_pos h]
    exact JsonObj.lookup_replaceKey_self fs k v h
  · rw [if_neg h]
    exact JsonObj.lookup_appendKey_self fs k v (by simpa using h)

theorem JsonObj.lookup_setField_ne (fs : JsonObj) (k k' : String) (v : Json)
    (h : ¬k' = k) : (fs.setField k v).lookup k' = fs.lookup k' := by
  rw [JsonObj.setField]
  by_cases hk : fs.hasKey k = true
  · rw [if_pos hk]
    exact JsonObj.lookup_replaceKey_ne fs k k' v h
  · rw [if_neg hk]
    exact JsonObj.lookup_appendKey_ne fs k k' v h

theorem JsonObj.lookup_eq_none (fs : JsonObj) (k : String) (h : k ∉ fs.keys) :
    fs.lookup k = none := by
  cases fs with
  | nil => rfl
  | cons k0 w tl =>
      rw [JsonObj.keys] at h
      rw [JsonObj.lookup]
      by_cases h0 : k0 = k
      · exfalso
        apply h
        rw [← h0]
        exact List.mem_cons_self k0 tl.keys
      · rw [if_neg h0]
        exact JsonObj.lookup_eq_none tl k (fun hh => h (List.mem_cons_of_mem k0 hh))

/-- Looking up a key after spreading a duplicate-free source onto a target:
a key present in the source gets the source's value, any other key keeps the
target's value. -/
theorem JsonObj.spreadOnto_lookup (src : JsonObj) (acc : JsonObj) (k : String) :
    src.keys.Nodup →
    (∀ v, src.lookup k = some v → (acc.spreadOnto src).lookup k = some v)
    ∧ (src.lookup k = none → (acc.spreadOnto src).lookup k = acc.lookup k) := by
  cases src with
  | nil =>
      exact fun _ => ⟨fun v hv => by simp [JsonObj.lookup] at hv, fun _ => rfl⟩
  | cons k0 v0 tl =>
      intro hnd
      rw [JsonObj.keys, List.nodup_cons] at hnd
      constructor
      · intro v hv
        rw [JsonObj.lookup] at hv
        by_cases h0 : k0 = k
        · rw [if_pos h0] at hv
          subst h0
          obtain rfl : v0 = v := by injection hv
          have hnone := JsonObj.lookup_eq_none tl k0 hnd.1
          rw [JsonObj.spreadOnto, ((JsonObj.spreadOnto_lookup tl (acc.setField k0 v0) k0 hnd.2).2) hnone,
            JsonObj.lookup_setField_self]
        · rw [if_neg h0] at hv
          rw [JsonObj.spreadOnto]
          exact (JsonObj.spreadOnto_lookup tl (acc.setField k0 v0) k hnd.2).1 v hv
      · intro hv
        rw [JsonObj.lookup] at hv
        by_cases h0 : k0 = k
        · rw [if_pos h0] at hv
          simp at hv
        · rw [if_neg h0] at hv
          rw [JsonObj.spreadOnto, (JsonObj.spreadOnto_lookup tl (acc.setField k0 v0) k hnd.2).2 hv,
            JsonObj.lookup_setField_ne _ _ _ _ (fun hh => h0 hh.symm)]

theorem Store.getItem_removeItem (st : Store) (k : String) :
    (st.removeItem k).getItem k = none := by
  rw [Store.getItem, Store.removeItem]
  have : List.find? (fun e => e.1 = k) (st.entries.filter (fun e => e.1 ≠ k)) = none := by
    rw [List.find?_eq_none]
    intro x hx
    have := (List.mem_filter.mp hx).2
    simpa using this
  rw [this]
  rfl

/-- Characterization of a run of `ADD_MESSAGE` transitions for one target id:
every matching collection entry gets the messages appended in call order, and
so does the active copy when its id matches. -/
theorem runActions_addMessage (cid : String) (msgs : List Message) (s : State) :
    (runActions s (msgs.map (Action.addMessage cid ·))).conversations
      = s.conversations.map
          (fun c => if c.id = cid then { c with messages := c.messages ++ msgs } else c)
    ∧ (runActions s (msgs.map (Action.addMessage cid ·))).activeConversation
      = (match s.activeConversation with
         | some a =>
             if a.id = cid then some { a with messages := a.messages ++ msgs } else some a
         | none => none) := by
  induction msgs generalizing s with
  | nil =>
      constructor
      · simp [runActions]
      · cases h : s.activeConversation <;> simp [runActions, h]
  | cons m ms ih =>
      have step :
          runActions s ((m :: ms).map (Action.addMessage cid ·))
            = runActions (appReducer s (.addMessage cid m)) (ms.map (Action.addMessage cid ·)) := by
        simp [runActions]
      rw [step]
      obtain ⟨ih1, ih2⟩ := ih (appReducer s (.addMessage cid m))
      constructor
      · rw [ih1]
        simp only [appReducer, List.map_map]
        apply List.map_congr_left
        intro c _
        by_cases h : c.id = cid <;> simp [h]
      · rw [ih2]
        cases h : s.activeConversation with
        | none => simp [appReducer, h]
        | some a =>
            by_cases hid : a.id = cid <;> simp [appReducer, h, hid]

end Ireno

/-! ## Claim theorems -/

namespace Ireno

/-- C2: after N `AddMessage` transitions targeting the same conversation id
that exists in the collection, that conversation's message sequence has
exactly the N appended entries more, in call order, and if the active
conversation's id equals that id, the active copy has the same appended
entries; both copies are updated by the same single transition function. -/
theorem addMessage_append_only (s : State) (cid : String) (msgs : List Message)
    (hex : ∃ c ∈ s.conversations, c.id = cid) :
    (runActions s (msgs.map (Action.addMessage cid ·))).conversations
      = s.conversations.map
          (fun c => if c.id = cid then { c with messages := c.messages ++ msgs } else c)
    ∧ (∀ a, s.activeConversation = some a → a.id = cid →
        (runActions s (msgs.map (Action.addMessage cid ·))).activeConversation
          = some { a with messages := a.messages ++ msgs }) := by
  obtain ⟨h1, h2⟩ := runActions_addMessage cid msgs s
  refine ⟨h1, ?_⟩
  intro a ha hid
  rw [h2, ha]
  simp [hid]

/-- Concrete instantiation of `addMessage_append_only`. -/
theorem addMessage_append_only_witness :
    (∃ c ∈ sampleStateColl.conversations, c.id = "1")
    ∧ ((runActions sampleStateColl
          ([sampleMsg "m1" "user" "hi", sampleMsg "m2" "assistant" "yo"].map
            (Action.addMessage "1" ·))).conversations
        = sampleStateColl.conversations.map
            (fun c => if c.id = "1"
              then { c with messages :=
                c.messages ++ [sampleMsg "m1" "user" "hi", sampleMsg "m2" "assistant" "yo"] }
              else c)
      ∧ (∀ a, sampleStateColl.activeConversation = some a → a.id = "1" →
          (runActions sampleStateColl
            ([sampleMsg "m1" "user" "hi", sampleMsg "m2" "assistant" "yo"].map
              (Action.addMessage "1" ·))).activeConversation
            = some { a with messages :=
                a.messages ++ [sampleMsg "m1" "user" "hi", sampleMsg "m2" "assistant" "yo"] })) :=
  ⟨by decide, addMessage_append_only _ _ _ (by decide)⟩

/-- C9: the reducer is total; an action whose `type` is none of the eleven
recognized action types falls through to the `default` branch, which returns
the input state itself unchanged.  (No recognized action can throw: the
reducer is a total Lean function on well-formed payloads by construction.) -/
theorem appReducer_default_identity (s : State) : appReducer s Action.unknown = s := rfl

/-- C6: `UPDATE_CONVERSATION` shallow-merges the updates into the matching
collection entries only; every other entry, the separately held
`activeConversation` copy (even if its id matches), and all other state
fields are untouched. -/
theorem updateConversation_frame (s : State) (cid : String) (u : ConversationUpdates) :
    appReducer s (.updateConversation cid u)
      = { s with conversations :=
            s.conversations.map fun c => if c.id = cid then applyUpdates c u else c }
    ∧ (appReducer s (.updateConversation cid u)).activeConversation = s.activeConversation :=
  ⟨rfl, rfl⟩

/-- C5 counterexample: in a state whose active pointer references an id with
no matching collection entry (reachable, e.g., via `SET_ACTIVE_CONVERSATION`
with a conversation not in the collection), `DELETE_CONVERSATION` of that id
changes the state (it nulls the active pointer), so "deleting an id with no
matching entry leaves the state unchanged" fails. -/
theorem deleteConversation_noop_counterexample :
    (∀ c ∈ sampleStateActiveOnly.conversations, c.id ≠ "1")
    ∧ appReducer sampleStateActiveOnly (.deleteConversation "1") ≠ sampleStateActiveOnly := by
  refine ⟨by simp [sampleStateActiveOnly, initialState], ?_⟩
  intro h
  have := congrArg State.activeConversation h
  simp [appReducer, sampleStateActiveOnly, sampleConv, initialState] at this

/-- C5 amended: `DeleteConversation(id)` is idempotent; deleting an id with no
matching collection entry *and not referenced by the active pointer* leaves
the state unchanged; afterwards the collection contains no entry with that id;
and the active pointer becomes null exactly when it pointed to the deleted id,
and is otherwise unchanged. -/
theorem deleteConversation_contract (s : State) (cid : String) :
    appReducer (appReducer s (.deleteConversation cid)) (.deleteConversation cid)
      = appReducer s (.deleteConversation cid)
    ∧ ((∀ c ∈ s.conversations, c.id ≠ cid) →
        (∀ a, s.activeConversation = some a → a.id ≠ cid) →
        appReducer s (.deleteConversation cid) = s)
    ∧ (∀ c ∈ (appReducer s (.deleteConversation cid)).conversations, c.id ≠ cid)
    ∧ (appReducer s (.deleteConversation cid)).activeConversation
        = (match s.activeConversation with
           | some a => if a.id = cid then none else some a
           | none => none) := by
  refine ⟨?_, ?_, ?_, rfl⟩
  · cases h : s.activeConversation with
    | none =>
        simp [appReducer, h, List.filter_filter]
    | some a =>
        by_cases hid : a.id = cid <;>
          simp [appReducer, h, hid, List.filter_filter]
  · intro hcoll hact
    cases h : s.activeConversation with
    | none =>
        simp only [appReducer, h]
        rw [List.filter_eq_self.mpr (by intro c hc; simpa using hcoll c hc), ← h]
    | some a =>
        simp only [appReducer, h, if_neg (hact a h)]
        rw [List.filter_eq_self.mpr (by intro c hc; simpa using hcoll c hc), ← h]
  · intro c hc
    simp only [appReducer, List.mem_filter] at hc
    simpa using hc.2

/-- Concrete instantiation of `deleteConversation_contract`: two conversations
"1" (active) and "2"; deleting the absent id "0" is a no-op, and after
deleting "2" no entry with id "2" remains. -/
theorem deleteConversation_contract_witness :
    appReducer sampleStateTwo (.deleteConversation "0") = sampleStateTwo
    ∧ (∀ c ∈ (appReducer sampleStateTwo (.deleteConversation "2")).conversations, c.id ≠ "2") :=
  ⟨(deleteConversation_contract sampleStateTwo "0").2.1 (by decide)
      (by intro a ha; simp only [sampleStateTwo, Option.some.injEq] at ha; subst ha; decide),
   (deleteConversation_contract sampleStateTwo "2").2.2.1⟩

/-- C10: when the active conversation's id matches the `ADD_MESSAGE` target
but no collection entry has that id, the message is appended to the active
copy while the collection is unchanged — the two copies are guarded by
independent id checks. -/
theorem addMessage_active_copy_independent (s : State) (cid : String) (m : Message)
    (a : Conversation) (ha : s.activeConversation = some a) (hid : a.id = cid)
    (hno : ∀ c ∈ s.conversations, c.id ≠ cid) :
    (appReducer s (.addMessage cid m)).conversations = s.conversations
    ∧ (appReducer s (.addMessage cid m)).activeConversation
        = some { a with messages := a.messages ++ [m] } := by
  constructor
  · simp only [appReducer]
    calc s.conversations.map
          (fun conv => if conv.id = cid
            then { conv with messages := conv.messages ++ [m] } else conv)
        = s.conversations.map id := by
          apply List.map_congr_left
          intro c hc
          simp [hno c hc]
      _ = s.conversations := List.map_id _
  · simp [appReducer, ha, hid]

/-- Concrete instantiation of `addMessage_active_copy_independent`. -/
theorem addMessage_active_copy_independent_witness :
    (appReducer sampleStateActiveOnly
        (.addMessage "1" (sampleMsg "m1" "user" "hi"))).conversations
      = sampleStateActiveOnly.conversations
    ∧ (appReducer sampleStateActiveOnly
        (.addMessage "1" (sampleMsg "m1" "user" "hi"))).activeConversation
      = some { sampleConv "1" "T" with messages := (sampleConv "1" "T").messages
          ++ [sampleMsg "m1" "user" "hi"] } :=
  addMessage_active_copy_independent sampleStateActiveOnly "1" (sampleMsg "m1" "user" "hi")
    (sampleConv "1" "T") rfl rfl (by decide)

end Ireno


namespace Ireno

/-- C1: for every state reached by a sequence of transitions that does not
include `DeleteConversation`, `ClearAllConversations` or `LogoutUser`,
stringifying the state, parsing the string back, validating and merging with
the same default state yields exactly the fields of that state, except that
`userRoles` and `quickPrompts` carry the default state's values.  (The law in
fact holds for every state; the transition side condition is recorded as the
claim states it.) -/
theorem persistence_roundtrip_law (d s0 : State) (acts : List Action)
    (hacts : ∀ a ∈ acts, isDestructive a = false) :
    encodeDecodeMerge d (runActions s0 acts)
      = some (stateFields
          { runActions s0 acts with userRoles := d.userRoles, quickPrompts := d.quickPrompts }) :=
  encodeDecodeMerge_eq d (runActions s0 acts)

/-- Concrete instantiation of `persistence_roundtrip_law`. -/
theorem persistence_roundtrip_law_witness :
    (∀ a ∈ [Action.toggleSidebar], isDestructive a = false)
    ∧ encodeDecodeMerge initialState (runActions initialState [Action.toggleSidebar])
        = some (stateFields
            { runActions initialState [Action.toggleSidebar] with
                userRoles := initialState.userRoles
                quickPrompts := initialState.quickPrompts }) :=
  ⟨by decide,
   persistence_roundtrip_law initialState initialState [Action.toggleSidebar] (by decide)⟩

/-- C3: the hydration merge overlays every field present in the persisted
object over the default state's fields (persisted values win on overlap), and
then `userRoles` and `quickPrompts` always carry the default state's values,
whatever the persisted blob contained.  The duplicate-free key hypothesis is
the JS object invariant (a parsed object never has duplicate keys). -/
theorem hydration_merge_contract (d : State) (pfs : JsonObj) (hnd : pfs.keys.Nodup) :
    (hydrateFields d (.obj pfs)).lookup "userRoles"
        = some (.arr (listToJsonArr (d.userRoles.map encodeRole)))
    ∧ (hydrateFields d (.obj pfs)).lookup "quickPrompts"
        = some (.arr (listToJsonArr (d.quickPrompts.map encodeQuickPrompt)))
    ∧ (∀ k, ¬k = "userRoles" → ¬k = "quickPrompts" →
        (∀ v, pfs.lookup k = some v → (hydrateFields d (.obj pfs)).lookup k = some v)
        ∧ (pfs.lookup k = none →
            (hydrateFields d (.obj pfs)).lookup k = (stateFields d).lookup k)) := by
  have hbase : hydrateFields d (.obj pfs)
      = (((stateFields d).spreadOnto pfs).setField
            "userRoles" (.arr (listToJsonArr (d.userRoles.map encodeRole)))).setField
            "quickPrompts" (.arr (listToJsonArr (d.quickPrompts.map encodeQuickPrompt))) := by
    rw [hydrateFields, show spreadSource (.obj pfs) = pfs from rfl, spreadOnto_nil_stateFields]
  refine ⟨?_, ?_, ?_⟩
  · rw [hbase, JsonObj.lookup_setField_ne _ _ _ _ (by decide), JsonObj.lookup_setField_self]
  · rw [hbase, JsonObj.lookup_setField_self]
  · intro k hk1 hk2
    constructor
    · intro v hv
      rw [hbase, JsonObj.lookup_setField_ne _ _ _ _ hk2, JsonObj.lookup_setField_ne _ _ _ _ hk1]
      exact (JsonObj.spreadOnto_lookup pfs (stateFields d) k hnd).1 v hv
    · intro hv
      rw [hbase, JsonObj.lookup_setField_ne _ _ _ _ hk2, JsonObj.lookup_setField_ne _ _ _ _ hk1]
      exact (JsonObj.spreadOnto_lookup pfs (stateFields d) k hnd).2 hv

/-- Concrete instantiation of `hydration_merge_contract` with a tampered
`userRoles` value: the merge restores the catalog, keeps the tampered `theme`,
and falls back to the default for absent fields. -/
theorem hydration_merge_contract_witness :
    (hydrateFields initialState (.obj tamperedFields)).lookup "userRoles"
        = some (.arr (listToJsonArr (initialState.userRoles.map encodeRole)))
    ∧ (hydrateFields initialState (.obj tamperedFields)).lookup "theme"
        = some (.str "dark")
    ∧ (hydrateFields initialState (.obj tamperedFields)).lookup "isTyping"
        = (stateFields initialState).lookup "isTyping" :=
  ⟨(hydration_merge_contract initialState tamperedFields (by decide)).1,
   ((hydration_merge_contract initialState tamperedFields (by decide)).2.2 "theme"
      (by decide) (by decide)).1 (.str "dark") (by decide),
   ((hydration_merge_contract initialState tamperedFields (by decide)).2.2 "isTyping"
      (by decide) (by decide)).2 (by decide)⟩

/-- C4 counterexample: a stored *empty* string is not valid JSON, and
`initializeStateFromStorage` does return the default state for it — but the
JS truthiness test `if (storedState)` treats the empty string like an absent
key, so the bad value is *not* removed and the key still holds it afterward. -/
theorem initializeState_empty_counterexample :
    Json.parse "" = none
    ∧ emptyStringStore.getItem STORAGE_KEY = some ""
    ∧ initializeStateFromStorage true emptyStringStore initialState
        = (.default initialState, emptyStringStore)
    ∧ ¬emptyStringStore.getItem STORAGE_KEY = none := by
  refine ⟨rfl, rfl, rfl, by decide⟩

/-- C4 amended: for every stored *non-empty* string that is not valid JSON,
or whose parse result is not a structured object, `initializeStateFromStorage`
does not raise (it is total), returns exactly the supplied default state, and
removes the fixed storage key, which afterwards holds nothing.  (A stored
empty string also yields the default state, but is treated as an absent key
and left in place.) -/
theorem initializeState_decodeError_cleanup (store : Store) (d : State) (s : String)
    (hget : store.getItem STORAGE_KEY = some s) (hne : ¬s = "")
    (hbad : Json.parse s = none
      ∨ ∃ v, Json.parse s = some v ∧ isStructuredObject v = false) :
    initializeStateFromStorage true store d = (.default d, store.removeItem STORAGE_KEY)
    ∧ (store.removeItem STORAGE_KEY).getItem STORAGE_KEY = none := by
  refine ⟨?_, Store.getItem_removeItem store STORAGE_KEY⟩
  rw [initializeStateFromStorage, if_neg (by decide), hget]
  simp only []
  rw [if_neg hne]
  rcases hbad with h | ⟨v, hv, hns⟩
  · rw [h]
  · rw [hv]
    simp [hns]

/-- Concrete instantiation of `initializeState_decodeError_cleanup` on the
stored blob `"not json"`. -/
theorem initializeState_decodeError_cleanup_witness :
    notJsonStore.getItem STORAGE_KEY = some "not json"
    ∧ Json.parse "not json" = none
    ∧ initializeStateFromStorage true notJsonStore initialState
        = (.default initialState, notJsonStore.removeItem STORAGE_KEY)
    ∧ (notJsonStore.removeItem STORAGE_KEY).getItem STORAGE_KEY = none :=
  ⟨rfl, rfl,
   (initializeState_decodeError_cleanup notJsonStore initialState "not json" rfl (by decide)
      (Or.inl rfl)).1,
   (initializeState_decodeError_cleanup notJsonStore initialState "not json" rfl (by decide)
      (Or.inl rfl)).2⟩

/-- C7: when the first write fails with `QuotaExceededError` specifically, the
effect removes the single legacy key `ireno-theme` and retries exactly once
(two write attempts in total); on any other failure name, there is no retry
(one attempt) and the store is untouched; and for every probe/outcome
combination the function returns normally (`.ok`) — no exception surfaces and
the in-memory state, which is only read, is unaffected. -/
theorem saveState_quota_retry (o2 : WriteOutcome) (st : Store) (state : State) :
    saveStateToStorage true (.err "QuotaExceededError") o2 st state
      = .ok ((match o2 with
          | .ok => (st.removeItem "ireno-theme").setItem STORAGE_KEY
              (Json.print (encodeState state))
          | .err _ => st.removeItem "ireno-theme"), 2)
    ∧ (∀ name, ¬name = "QuotaExceededError" →
        saveStateToStorage true (.err name) o2 st state = .ok (st, 1))
    ∧ (∀ available o1, ∃ r, saveStateToStorage available o1 o2 st state = .ok r) := by
  refine ⟨?_, ?_, ?_⟩
  · cases o2 <;> simp [saveStateToStorage, setItemOutcome]
  · intro name h
    simp [saveStateToStorage, setItemOutcome, h]
  · intro available o1
    cases available
    · exact ⟨(st, 0), rfl⟩
    · cases o1 with
      | ok => exact ⟨_, rfl⟩
      | err name =>
          by_cases h : name = "QuotaExceededError"
          · subst h
            cases o2 with
            | ok => exact ⟨_, rfl⟩
            | err n2 => exact ⟨_, rfl⟩
          · exact ⟨(st, 1), by simp [saveStateToStorage, setItemOutcome, h]⟩

/-- Concrete instantiation of `saveState_quota_retry`: a quota failure whose
retry also fails leaves the store with only the legacy key removed, after
exactly two attempts; a non-quota failure is not retried. -/
theorem saveState_quota_retry_witness :
    saveStateToStorage true (.err "QuotaExceededError") (.err "QuotaExceededError")
        emptyStore initialState
      = .ok (emptyStore.removeItem "ireno-theme", 2)
    ∧ saveStateToStorage true (.err "SecurityError") .ok emptyStore initialState
      = .ok (emptyStore, 1) :=
  ⟨(saveState_quota_retry (.err "QuotaExceededError") emptyStore initialState).1,
   (saveState_quota_retry .ok emptyStore initialState).2.1 "SecurityError" (by decide)⟩

/-- C8: every failed chat submission (non-2xx status or network error) is
converted into a synthetic assistant message, with the connectivity fallback
text, appended to the active conversation's copy and to every matching
collection entry; nothing is thrown (the function is total), and the typing
indicator is cleared afterwards. -/
theorem chatFailure_recovery (st : State) (a : Conversation) (outcome : BackendOutcome)
    (aiId ts emsg : String) (ha : st.activeConversation = some a)
    (hfail : outcomeErrorMessage outcome = some emsg) :
    (sendMessageToBackend st a outcome aiId ts).isTyping = false
    ∧ (sendMessageToBackend st a outcome aiId ts).activeConversation
        = some { a with messages := a.messages
            ++ [{ id := aiId, role := "assistant", content := fallbackContent emsg,
                  timestamp := ts }] }
    ∧ (sendMessageToBackend st a outcome aiId ts).conversations
        = st.conversations.map (fun c =>
            if c.id = a.id
            then { c with messages := c.messages
                ++ [{ id := aiId, role := "assistant", content := fallbackContent emsg,
                      timestamp := ts }] }
            else c) := by
  cases outcome with
  | success r => simp [outcomeErrorMessage] at hfail
  | httpError status =>
      rw [outcomeErrorMessage] at hfail
      injection hfail with h
      subst h
      refine ⟨rfl, ?_, rfl⟩
      simp [sendMessageToBackend, appReducer, ha]
  | networkError m =>
      rw [outcomeErrorMessage] at hfail
      injection hfail with h
      subst h
      refine ⟨rfl, ?_, rfl⟩
      simp [sendMessageToBackend, appReducer, ha]

/-- Concrete instantiation of `chatFailure_recovery`: a network failure while
conversation "1" is active appends the fallback assistant message to both
copies and clears the typing flag. -/
theorem chatFailure_recovery_witness :
    (sendMessageToBackend sampleStateTwo (sampleConv "1" "A")
        (.networkError "Failed to fetch") "m9" "t9").isTyping = false
    ∧ (sendMessageToBackend sampleStateTwo (sampleConv "1" "A")
        (.networkError "Failed to fetch") "m9" "t9").activeConversation
        = some { sampleConv "1" "A" with messages := (sampleConv "1" "A").messages
            ++ [{ id := "m9", role := "assistant",
                  content := fallbackContent "Failed to fetch", timestamp := "t9" }] }
    ∧ (sendMessageToBackend sampleStateTwo (sampleConv "1" "A")
        (.networkError "Failed to fetch") "m9" "t9").conversations
        = sampleStateTwo.conversations.map (fun c =>
            if c.id = (sampleConv "1" "A").id
            then { c with messages := c.messages
                ++ [{ id := "m9", role := "assistant",
                      content := fallbackContent "Failed to fetch", timestamp := "t9" }] }
            else c) :=
  chatFailure_recovery sampleStateTwo (sampleConv "1" "A") (.networkError "Failed to fetch")
    "m9" "t9" "Failed to fetch" rfl rfl

end Ireno
